import Mathlib

/-!
# Zipped-shapefile archive resolution and materialization, verified

A shallow embedding of the archive-member resolution and in-memory
decompression pipeline of `src/lib.rs` (the `ZippedShapefile` type), with
theorems about its error handling and resolution behaviour.

Modelling conventions:
* an archive is its list of members (`List Member`); each member carries its
  stored name, the declared uncompressed size from the zip index, the byte
  stream it decompresses to, and flags describing whether the stream read and
  UTF-8 decode succeed (those are decided by the zip/std libraries, outside
  this core);
* Rust `&mut self` methods become functions returning the result together
  with a trace of which members' decompressed streams were read
  (materialized), in order, and the post-call dataset state;
* the external geometry/attribute libraries (`shapefile`, `dbase`) enter as
  parameters (`Externals`): this core only calls their constructors and
  propagates their errors;
* a failed `assert!` is a forced process abort, modelled as the dedicated
  `Outcome.abort` constructor, distinct from every returned `Err`.
-/

namespace ZippedShp

/-- The error taxonomy of `enum Error` in `src/lib.rs`. Variants that only
wrap an external library's error are modelled as bare constructors. -/
inductive Error where
  | IOError
  | DBase
  | Zip
  | Shapefile
  | MultipleFilesFound (ext : String)
  | NoShpFound
  | Unknown
  | MemberSizeTooLarge (size : Nat)
  | NoDbfFound
  deriving DecidableEq

/-- One archive member: its stored name, the declared (64-bit) uncompressed
size from the zip index, the byte stream it decompresses to, whether reading
that stream runs to completion (`ioOk`), whether its bytes decode as UTF-8
(`utf8Ok`), and the text they decode to. -/
structure Member where
  name : String
  declaredSize : Nat
  content : List Nat
  ioOk : Bool
  utf8Ok : Bool
  asText : String
  deriving DecidableEq

/-- Rust `str::ends_with`: the pattern's characters are a suffix of the
name's characters. -/
def endsWith (s pat : String) : Bool :=
  pat.data.isSuffixOf s.data

/-- `std::io::Cursor<Vec<u8>>`: an owned byte buffer with a seek position;
`Cursor::new` starts at offset zero. -/
structure Cursor where
  buf : List Nat
  pos : Nat
  deriving DecidableEq

/-- Outcome of a fallible operation that may also hit a failed `assert!`:
`ok`/`err` mirror `Result`, while `abort` is a panic — in Rust it is not a
value of the `Result` type at all. -/
inductive Outcome (α : Type) where
  | ok (a : α)
  | err (e : Error)
  | abort
  deriving DecidableEq

/-- The four tentative name slots filled by the enumeration loop of
`ZippedShapefile::new`. -/
structure Slots where
  shp : Option String
  shx : Option String
  dbf : Option String
  prj : Option String
  deriving DecidableEq

/-- One iteration of the `for member in archive.file_names()` loop in
`ZippedShapefile::new`: the if/else-if suffix chain, failing with
`MultipleFilesFound` when the matching slot is already occupied. -/
def classifyStep (s : Slots) (member : String) : Except Error Slots :=
  if endsWith member ".shp" then
    match s.shp with
    | some _ => .error (.MultipleFilesFound ".shp")
    | none => .ok { s with shp := some member }
  else if endsWith member ".shx" then
    match s.shx with
    | some _ => .error (.MultipleFilesFound ".shx")
    | none => .ok { s with shx := some member }
  else if endsWith member ".dbf" then
    match s.dbf with
    | some _ => .error (.MultipleFilesFound ".dbf")
    | none => .ok { s with dbf := some member }
  else if endsWith member ".prj" then
    match s.prj with
    | some _ => .error (.MultipleFilesFound ".prj")
    | none => .ok { s with prj := some member }
  else
    .ok s

/-- The whole enumeration loop, left to right over the archive's listing. -/
def enumerate (names : List String) (s : Slots) : Except Error Slots :=
  match names with
  | [] => .ok s
  | n :: rest =>
    match classifyStep s n with
    | .error e => .error e
    | .ok s1 => enumerate rest s1

/-- The resolved dataset of `struct ZippedShapefile`: the archive handle
(modelled by its member list) plus the immutable resolved slots and the
eagerly decoded projection text. -/
structure ZippedShapefile where
  archive : List Member
  projection : Option String
  shp : String
  shx : Option String
  dbf : Option String
  deriving DecidableEq

/-- `ZipArchive::by_name`: exact-name lookup in the archive index. -/
def byName (members : List Member) (name : String) : Option Member :=
  members.find? (fun m => m.name == name)

/-- `Read::read_to_string` on a member's decompressed stream: fails with an
`std::io::Error` if the stream read fails or the bytes are not valid
UTF-8. -/
def readToString (m : Member) : Except Error String :=
  if m.ioOk && m.utf8Ok then .ok m.asText else .error .IOError

/-- The tail of `ZippedShapefile::new`: `match shp` — assemble the dataset,
or fail with `NoShpFound` when no geometry member was recorded. The trace
argument is passed through unchanged. -/
def finishNew (members : List Member) (slots : Slots) (projection : Option String)
    (t : List String) : Except Error ZippedShapefile × List String :=
  match slots.shp with
  | some shp => (.ok ⟨members, projection, shp, slots.shx, slots.dbf⟩, t)
  | none => (.error .NoShpFound, t)

/-- `ZippedShapefile::new`, with an event trace: the second component lists
the names of the members whose decompressed streams were read (materialized),
in order. Mirrors the source: enumerate and classify every member name, then
eagerly read the projection member if one was recorded (`by_name` +
`read_to_string`, each `?`-propagated), then check that a geometry member was
recorded. -/
def newWithTrace (members : List Member) : Except Error ZippedShapefile × List String :=
  match enumerate (members.map (·.name)) ⟨none, none, none, none⟩ with
  | .error e => (.error e, [])
  | .ok slots =>
    match slots.prj with
    | none => finishNew members slots none []
    | some prjName =>
      match byName members prjName with
      | none => (.error .Zip, [])
      | some m =>
        match readToString m with
        | .error e => (.error e, [prjName])
        | .ok wkt => finishNew members slots (some wkt) [prjName]

/-- `ZippedShapefile::new` proper: just the returned `Result`. -/
def new (members : List Member) : Except Error ZippedShapefile :=
  (newWithTrace members).1

/-- `ZippedShapefile::read_member`, with the trace of stream reads and the
post-call dataset state. `usizeMax` is the platform's `usize::MAX`, so the
`try_into` of the declared `u64` size fails exactly when the size exceeds it.
Mutation through `&mut self` is confined to stream positions inside the zip
handle, below this model's abstraction, so the post state equals the input
state. -/
def read_member (usizeMax : Nat) (zs : ZippedShapefile) (name : String) :
    Outcome Cursor × List String × ZippedShapefile :=
  match byName zs.archive name with
  | none => (.err .Zip, [], zs)
  | some m =>
    if m.declaredSize ≤ usizeMax then
      if m.ioOk then
        if m.declaredSize = m.content.length then
          (.ok ⟨m.content, 0⟩, [name], zs)
        else
          (.abort, [name], zs)
      else
        (.err .IOError, [name], zs)
    else
      (.err (.MemberSizeTooLarge m.declaredSize), [], zs)

/-- Opaque handle standing for the external geometry library's
`shapefile::ShapeReader` values. -/
structure ShpReader where
  tag : Nat
  deriving DecidableEq

/-- One attribute-table field descriptor: its name and the display string of
its (private) type tag. -/
structure DbfField where
  name : String
  fieldTypeStr : String
  deriving DecidableEq

/-- Opaque model of `dbase::Reader`: all this core reads from it is its
ordered field list. -/
structure DbfReader where
  fields : List DbfField
  deriving DecidableEq

/-- `shapefile::Reader::new`: the infallible pairing of a geometry reader and
an attribute reader. -/
structure CombinedReader where
  shp : ShpReader
  dbf : DbfReader
  deriving DecidableEq

/-- The external libraries' construction entry points, taken as parameters:
`ShapeReader::new`, `ShapeReader::with_shx` and `dbase::Reader::new` are
opaque to this core beyond their fallibility. -/
structure Externals where
  shapeNew : Cursor → Except Error ShpReader
  shapeWithShx : Cursor → Cursor → Except Error ShpReader
  dbaseNew : Cursor → Except Error DbfReader

/-- Lift an external library `Result` into an `Outcome` (a library error is
returned as such, never a panic). -/
def ofExcept {α : Type} : Except Error α → Outcome α
  | .ok a => .ok a
  | .error e => .err e

/-- `ZippedShapefile::projection`: pure accessor (`as_deref`), no `Result`,
no reads. -/
def projection (zs : ZippedShapefile) : Option String :=
  zs.projection

/-- `ZippedShapefile::shape_reader`: materialize the geometry member, then,
if an index member was resolved, materialize it too and build the reader from
both buffers (`with_shx`), else from the geometry buffer alone (`new`). -/
def shape_reader (E : Externals) (usizeMax : Nat) (zs : ZippedShapefile) :
    Outcome ShpReader × List String × ZippedShapefile :=
  match read_member usizeMax zs zs.shp with
  | (.ok shpCur, t1, zs1) =>
    match zs.shx with
    | some shx =>
      match read_member usizeMax zs1 shx with
      | (.ok shxCur, t2, zs2) => (ofExcept (E.shapeWithShx shpCur shxCur), t1 ++ t2, zs2)
      | (.err e, t2, zs2) => (.err e, t1 ++ t2, zs2)
      | (.abort, t2, zs2) => (.abort, t1 ++ t2, zs2)
    | none => (ofExcept (E.shapeNew shpCur), t1, zs1)
  | (.err e, t1, zs1) => (.err e, t1, zs1)
  | (.abort, t1, zs1) => (.abort, t1, zs1)

/-- `ZippedShapefile::dbf_reader`: an absent attribute slot yields
`Ok(None)`; otherwise materialize the member and hand it to
`dbase::Reader::new`. -/
def dbf_reader (E : Externals) (usizeMax : Nat) (zs : ZippedShapefile) :
    Outcome (Option DbfReader) × List String × ZippedShapefile :=
  match zs.dbf with
  | none => (.ok none, [], zs)
  | some dbf =>
    match read_member usizeMax zs dbf with
    | (.ok cur, t, zs1) =>
      match E.dbaseNew cur with
      | .ok r => (.ok (some r), t, zs1)
      | .error e => (.err e, t, zs1)
    | (.err e, t, zs1) => (.err e, t, zs1)
    | (.abort, t, zs1) => (.abort, t, zs1)

/-- `ZippedShapefile::reader`:
`self.dbf_reader().transpose().unwrap_or(Err(Error::NoDbfFound))?`, then
`self.shape_reader()?`, then the infallible pairing `Reader::new`. -/
def reader (E : Externals) (usizeMax : Nat) (zs : ZippedShapefile) :
    Outcome CombinedReader × List String × ZippedShapefile :=
  match dbf_reader E usizeMax zs with
  | (.ok none, t1, zs1) => (.err .NoDbfFound, t1, zs1)
  | (.ok (some dbf), t1, zs1) =>
    match shape_reader E usizeMax zs1 with
    | (.ok shp, t2, zs2) => (.ok ⟨shp, dbf⟩, t1 ++ t2, zs2)
    | (.err e, t2, zs2) => (.err e, t1 ++ t2, zs2)
    | (.abort, t2, zs2) => (.abort, t1 ++ t2, zs2)
  | (.err e, t1, zs1) => (.err e, t1, zs1)
  | (.abort, t1, zs1) => (.abort, t1, zs1)

/-- `ZippedShapefile::types`: map the attribute reader's field descriptors to
(name, type-label) pairs, preserving their order; an absent slot gives
`Ok(None)`. -/
def types (E : Externals) (usizeMax : Nat) (zs : ZippedShapefile) :
    Outcome (Option (List (String × String))) × List String × ZippedShapefile :=
  match dbf_reader E usizeMax zs with
  | (.ok ro, t, zs1) =>
    (.ok (ro.map fun r => r.fields.map fun f => (f.name, f.fieldTypeStr)), t, zs1)
  | (.err e, t, zs1) => (.err e, t, zs1)
  | (.abort, t, zs1) => (.abort, t, zs1)

/-- The four tracked extensions, in the order the suffix chain tests them. -/
def tracked : List String := [".shp", ".shx", ".dbf", ".prj"]

/-- Slot accessor by extension (proof-side helper). -/
def slotGet (s : Slots) : String → Option String
  | ".shp" => s.shp
  | ".shx" => s.shx
  | ".dbf" => s.dbf
  | ".prj" => s.prj
  | _ => none

/-- Slot update by extension (proof-side helper). -/
def slotSet (s : Slots) (ext name : String) : Slots :=
  match ext with
  | ".shp" => { s with shp := some name }
  | ".shx" => { s with shx := some name }
  | ".dbf" => { s with dbf := some name }
  | ".prj" => { s with prj := some name }
  | _ => s

/-- How many names in `names` end with `ext`. -/
def cntE (ext : String) (names : List String) : Nat :=
  names.countP (fun n => endsWith n ext)

/-- The first name in `names` ending with `ext`. -/
def findE (ext : String) (names : List String) : Option String :=
  names.find? (fun n => endsWith n ext)

/-- First-slot-wins combination (proof-side helper). -/
def orF (a b : Option String) : Option String :=
  match a with
  | some x => some x
  | none => b

/-- 1 when the slot for `ext` is occupied, else 0 (proof-side helper). -/
def slotCnt (s : Slots) (ext : String) : Nat :=
  if (slotGet s ext).isSome then 1 else 0

/-! ## Concrete fixtures -/

/-- A well-formed, empty member with the given name. -/
def memberNamed (n : String) : Member := ⟨n, 0, [], true, true, ""⟩

/-- A projection member whose stream reads and decodes fine. -/
def goodPrj : Member := ⟨"a.prj", 3, [65, 66, 67], true, true, "ABC"⟩

/-- A projection member whose bytes are not valid UTF-8. -/
def badPrj : Member := ⟨"b.prj", 3, [255, 0, 1], true, false, ""⟩

def mShp : Member := ⟨"d.shp", 3, [1, 2, 3], true, true, ""⟩

def mShx : Member := ⟨"d.shx", 1, [9], true, true, ""⟩

def mDbf : Member := ⟨"d.dbf", 2, [4, 5], true, true, ""⟩

/-- Declared size 5, but the stream yields only 2 bytes. -/
def mShort : Member := ⟨"s.shp", 5, [1, 2], true, true, ""⟩

/-- Declared size `2^40`, too large for a 32-bit `usize`. -/
def mBig : Member := ⟨"big.shp", 2 ^ 40, [], true, true, ""⟩

def zsFull : ZippedShapefile :=
  ⟨[mShp, mShx, mDbf], none, "d.shp", some "d.shx", some "d.dbf"⟩

def zsNoDbf : ZippedShapefile := ⟨[mShp], none, "d.shp", none, none⟩

def zsBig : ZippedShapefile := ⟨[mBig], none, "big.shp", none, none⟩

def zsShort : ZippedShapefile := ⟨[mShort], none, "s.shp", none, none⟩

/-- Always-succeeding external constructors. -/
def extOk : Externals :=
  ⟨fun _ => .ok ⟨0⟩, fun _ _ => .ok ⟨1⟩, fun _ => .ok ⟨[⟨"id", "N"⟩]⟩⟩

/-- An archive with two `.dbf` members. -/
def dupDbfArchive : List Member := [mDbf, ⟨"e.dbf", 0, [], true, true, ""⟩]

/-! ## Suffix matching facts -/

theorem endsWith_iff {s pat : String} : endsWith s pat = true ↔ pat.data <:+ s.data := by
  simp [endsWith]

theorem ends_excl_aux {n e1 e2 : String} (hlen : e1.data.length = e2.data.length)
    (hne : e1.data ≠ e2.data) (h1 : endsWith n e1 = true) : endsWith n e2 = false := by
  by_contra h2
  rw [Bool.not_eq_false, endsWith_iff] at h2
  rw [endsWith_iff] at h1
  obtain ⟨t1, ht1⟩ := h1
  obtain ⟨t2, ht2⟩ := h2
  apply hne
  have hcat : t1 ++ e1.data = t2 ++ e2.data := ht1.trans ht2.symm
  have hl : t1.length = t2.length := by
    have := congrArg List.length hcat
    simp only [List.length_append] at this
    omega
  exact (List.append_inj hcat hl).2

theorem ends_excl {n e1 e2 : String} (h1m : e1 ∈ tracked) (h2m : e2 ∈ tracked)
    (hne : e1 ≠ e2) (h1 : endsWith n e1 = true) : endsWith n e2 = false := by
  simp only [tracked, List.mem_cons, List.not_mem_nil, or_false] at h1m h2m
  rcases h1m with rfl | rfl | rfl | rfl <;> rcases h2m with rfl | rfl | rfl | rfl <;>
    first
      | exact absurd rfl hne
      | exact ends_excl_aux (by decide) (by decide) h1

/-! ## Behaviour of one classification step -/

theorem classifyStep_shp {s : Slots} {n : String} (h : endsWith n ".shp" = true) :
    classifyStep s n = match s.shp with
      | some _ => .error (.MultipleFilesFound ".shp")
      | none => .ok { s with shp := some n } := by
  simp [classifyStep, h]

theorem classifyStep_shx {s : Slots} {n : String} (h : endsWith n ".shx" = true) :
    classifyStep s n = match s.shx with
      | some _ => .error (.MultipleFilesFound ".shx")
      | none => .ok { s with shx := some n } := by
  have h1 : endsWith n ".shp" = false :=
    ends_excl (by decide) (by decide) (by decide) h
  simp [classifyStep, h, h1]

theorem classifyStep_dbf {s : Slots} {n : String} (h : endsWith n ".dbf" = true) :
    classifyStep s n = match s.dbf with
      | some _ => .error (.MultipleFilesFound ".dbf")
      | none => .ok { s with dbf := some n } := by
  have h1 : endsWith n ".shp" = false :=
    ends_excl (by decide) (by decide) (by decide) h
  have h2 : endsWith n ".shx" = false :=
    ends_excl (by decide) (by decide) (by decide) h
  simp [classifyStep, h, h1, h2]

theorem classifyStep_prj {s : Slots} {n : String} (h : endsWith n ".prj" = true) :
    classifyStep s n = match s.prj with
      | some _ => .error (.MultipleFilesFound ".prj")
      | none => .ok { s with prj := some n } := by
  have h1 : endsWith n ".shp" = false :=
    ends_excl (by decide) (by decide) (by decide) h
  have h2 : endsWith n ".shx" = false :=
    ends_excl (by decide) (by decide) (by decide) h
  have h3 : endsWith n ".dbf" = false :=
    ends_excl (by decide) (by decide) (by decide) h
  simp [classifyStep, h, h1, h2, h3]

theorem classifyStep_untracked {s : Slots} {n : String}
    (h : ∀ ext ∈ tracked, endsWith n ext = false) :
    classifyStep s n = .ok s := by
  have h1 := h ".shp" (by decide)
  have h2 := h ".shx" (by decide)
  have h3 := h ".dbf" (by decide)
  have h4 := h ".prj" (by decide)
  simp [classifyStep, h1, h2, h3, h4]

/-! ## Slot helper computation rules -/

theorem slotGet_shp (s : Slots) : slotGet s ".shp" = s.shp := rfl

theorem slotGet_shx (s : Slots) : slotGet s ".shx" = s.shx := rfl

theorem slotGet_dbf (s : Slots) : slotGet s ".dbf" = s.dbf := rfl

theorem slotGet_prj (s : Slots) : slotGet s ".prj" = s.prj := rfl

theorem slotSet_shp (s : Slots) (n : String) :
    slotSet s ".shp" n = { s with shp := some n } := rfl

theorem slotSet_shx (s : Slots) (n : String) :
    slotSet s ".shx" n = { s with shx := some n } := rfl

theorem slotSet_dbf (s : Slots) (n : String) :
    slotSet s ".dbf" n = { s with dbf := some n } := rfl

theorem slotSet_prj (s : Slots) (n : String) :
    slotSet s ".prj" n = { s with prj := some n } := rfl

theorem orF_none (a : Option String) : orF a none = a := by
  cases a <;> rfl

/-! ## Counting helpers -/

theorem cntE_cons_pos {n ext : String} (names : List String) (h : endsWith n ext = true) :
    cntE ext (n :: names) = cntE ext names + 1 := by
  simp [cntE, List.countP_cons, h]

theorem cntE_cons_neg {n ext : String} (names : List String) (h : endsWith n ext = false) :
    cntE ext (n :: names) = cntE ext names := by
  simp [cntE, List.countP_cons, h]

theorem findE_cons_pos {n ext : String} (names : List String) (h : endsWith n ext = true) :
    findE ext (n :: names) = some n := by
  simp [findE, List.find?_cons_of_pos, h]

theorem findE_cons_neg {n ext : String} (names : List String) (h : endsWith n ext = false) :
    findE ext (n :: names) = findE ext names := by
  simp [findE, List.find?_cons_of_neg, h]

/-! ## Characterization of the enumeration loop -/

/-- When no tracked extension is duplicated (relative to the starting slots),
the loop succeeds and each slot ends up holding the first matching name. -/
theorem enumerate_ok_char (names : List String) :
    ∀ (s : Slots),
    (s.shp.isSome = true → cntE ".shp" names = 0) → cntE ".shp" names ≤ 1 →
    (s.shx.isSome = true → cntE ".shx" names = 0) → cntE ".shx" names ≤ 1 →
    (s.dbf.isSome = true → cntE ".dbf" names = 0) → cntE ".dbf" names ≤ 1 →
    (s.prj.isSome = true → cntE ".prj" names = 0) → cntE ".prj" names ≤ 1 →
    enumerate names s = .ok ⟨orF s.shp (findE ".shp" names),
      orF s.shx (findE ".shx" names),
      orF s.dbf (findE ".dbf" names),
      orF s.prj (findE ".prj" names)⟩ := by
  induction names with
  | nil =>
    intro s _ _ _ _ _ _ _ _
    simp [enumerate, findE, orF_none]
  | cons n rest ih =>
    intro s h1 h2 h3 h4 h5 h6 h7 h8
    by_cases hshp : endsWith n ".shp" = true
    · have hx : endsWith n ".shx" = false :=
        ends_excl (by decide) (by decide) (by decide) hshp
      have hd : endsWith n ".dbf" = false :=
        ends_excl (by decide) (by decide) (by decide) hshp
      have hp : endsWith n ".prj" = false :=
        ends_excl (by decide) (by decide) (by decide) hshp
      have hcnt := cntE_cons_pos rest hshp
      have hs : s.shp = none := by
        cases hsome : s.shp with
        | none => rfl
        | some v =>
          have h0 := h1 (by rw [hsome]; rfl)
          rw [hcnt] at h0
          omega
      have hstep : classifyStep s n = .ok { s with shp := some n } := by
        rw [classifyStep_shp hshp, hs]
      rw [hcnt] at h2
      rw [cntE_cons_neg rest hx] at h3 h4
      rw [cntE_cons_neg rest hd] at h5 h6
      rw [cntE_cons_neg rest hp] at h7 h8
      simp only [enumerate, hstep]
      refine (ih { s with shp := some n } (fun _ => by omega) (by omega)
        h3 h4 h5 h6 h7 h8).trans ?_
      rw [hs, findE_cons_pos rest hshp, findE_cons_neg rest hx,
        findE_cons_neg rest hd, findE_cons_neg rest hp]
      rfl
    · by_cases hshx : endsWith n ".shx" = true
      · have hq : endsWith n ".shp" = false :=
          ends_excl (by decide) (by decide) (by decide) hshx
        have hd : endsWith n ".dbf" = false :=
          ends_excl (by decide) (by decide) (by decide) hshx
        have hp : endsWith n ".prj" = false :=
          ends_excl (by decide) (by decide) (by decide) hshx
        have hcnt := cntE_cons_pos rest hshx
        have hs : s.shx = none := by
          cases hsome : s.shx with
          | none => rfl
          | some v =>
            have h0 := h3 (by rw [hsome]; rfl)
            rw [hcnt] at h0
            omega
        have hstep : classifyStep s n = .ok { s with shx := some n } := by
          rw [classifyStep_shx hshx, hs]
        rw [hcnt] at h4
        rw [cntE_cons_neg rest hq] at h1 h2
        rw [cntE_cons_neg rest hd] at h5 h6
        rw [cntE_cons_neg rest hp] at h7 h8
        simp only [enumerate, hstep]
        refine (ih { s with shx := some n } h1 h2 (fun _ => by omega) (by omega)
          h5 h6 h7 h8).trans ?_
        rw [hs, findE_cons_pos rest hshx, findE_cons_neg rest hq,
          findE_cons_neg rest hd, findE_cons_neg rest hp]
        rfl
      · by_cases hdbf : endsWith n ".dbf" = true
        · have hq : endsWith n ".shp" = false :=
            ends_excl (by decide) (by decide) (by decide) hdbf
          have hx : endsWith n ".shx" = false :=
            ends_excl (by decide) (by decide) (by decide) hdbf
          have hp : endsWith n ".prj" = false :=
            ends_excl (by decide) (by decide) (by decide) hdbf
          have hcnt := cntE_cons_pos rest hdbf
          have hs : s.dbf = none := by
            cases hsome : s.dbf with
            | none => rfl
            | some v =>
              have h0 := h5 (by rw [hsome]; rfl)
              rw [hcnt] at h0
              omega
          have hstep : classifyStep s n = .ok { s with dbf := some n } := by
            rw [classifyStep_dbf hdbf, hs]
          rw [hcnt] at h6
          rw [cntE_cons_neg rest hq] at h1 h2
          rw [cntE_cons_neg rest hx] at h3 h4
          rw [cntE_cons_neg rest hp] at h7 h8
          simp only [enumerate, hstep]
          refine (ih { s with dbf := some n } h1 h2 h3 h4 (fun _ => by omega)
            (by omega) h7 h8).trans ?_
          rw [hs, findE_cons_pos rest hdbf, findE_cons_neg rest hq,
            findE_cons_neg rest hx, findE_cons_neg rest hp]
          rfl
        · by_cases hprj : endsWith n ".prj" = true
          · have hq : endsWith n ".shp" = false :=
              ends_excl (by decide) (by decide) (by decide) hprj
            have hx : endsWith n ".shx" = false :=
              ends_excl (by decide) (by decide) (by decide) hprj
            have hd : endsWith n ".dbf" = false :=
              ends_excl (by decide) (by decide) (by decide) hprj
            have hcnt := cntE_cons_pos rest hprj
            have hs : s.prj = none := by
              cases hsome : s.prj with
              | none => rfl
              | some v =>
                have h0 := h7 (by rw [hsome]; rfl)
                rw [hcnt] at h0
                omega
            have hstep : classifyStep s n = .ok { s with prj := some n } := by
              rw [classifyStep_prj hprj, hs]
            rw [hcnt] at h8
            rw [cntE_cons_neg rest hq] at h1 h2
            rw [cntE_cons_neg rest hx] at h3 h4
            rw [cntE_cons_neg rest hd] at h5 h6
            simp only [enumerate, hstep]
            refine (ih { s with prj := some n } h1 h2 h3 h4 h5 h6
              (fun _ => by omega) (by omega)).trans ?_
            rw [hs, findE_cons_pos rest hprj, findE_cons_neg rest hq,
              findE_cons_neg rest hx, findE_cons_neg rest hd]
            rfl
          · rw [Bool.not_eq_true] at hshp hshx hdbf hprj
            have hstep : classifyStep s n = .ok s := classifyStep_untracked (by
              intro ext hext
              simp only [tracked, List.mem_cons, List.not_mem_nil, or_false] at hext
              rcases hext with rfl | rfl | rfl | rfl <;> assumption)
            rw [cntE_cons_neg rest hshp] at h1 h2
            rw [cntE_cons_neg rest hshx] at h3 h4
            rw [cntE_cons_neg rest hdbf] at h5 h6
            rw [cntE_cons_neg rest hprj] at h7 h8
            simp only [enumerate, hstep]
            refine (ih s h1 h2 h3 h4 h5 h6 h7 h8).trans ?_
            rw [findE_cons_neg rest hshp, findE_cons_neg rest hshx,
              findE_cons_neg rest hdbf, findE_cons_neg rest hprj]

/-- Specialization to the empty starting slots `new` uses. -/
theorem enumerate_empty_ok (names : List String)
    (hd : ∀ ext ∈ tracked, cntE ext names ≤ 1) :
    enumerate names ⟨none, none, none, none⟩ =
      .ok ⟨findE ".shp" names, findE ".shx" names,
        findE ".dbf" names, findE ".prj" names⟩ := by
  have h := enumerate_ok_char names ⟨none, none, none, none⟩
    (by intro h0; cases h0) (hd ".shp" (by decide))
    (by intro h0; cases h0) (hd ".shx" (by decide))
    (by intro h0; cases h0) (hd ".dbf" (by decide))
    (by intro h0; cases h0) (hd ".prj" (by decide))
  simpa [orF] using h

theorem slotCnt_eq_one {s : Slots} {ext : String} (h : (slotGet s ext).isSome = true) :
    slotCnt s ext = 1 := by
  simp [slotCnt, h]

theorem slotCnt_eq_zero {s : Slots} {ext : String} (h : slotGet s ext = none) :
    slotCnt s ext = 0 := by
  simp [slotCnt, h]

/-- Recording a fresh `.shp` match preserves, per tracked extension, the sum
of slot occupancy and remaining match count. -/
theorem slot_step_shp {s : Slots} {n : String} (rest : List String)
    (hmatch : endsWith n ".shp" = true) (hnone : s.shp = none) :
    ∀ e ∈ tracked, slotCnt { s with shp := some n } e + cntE e rest
      = slotCnt s e + cntE e (n :: rest) := by
  have hx : endsWith n ".shx" = false :=
    ends_excl (by decide) (by decide) (by decide) hmatch
  have hd : endsWith n ".dbf" = false :=
    ends_excl (by decide) (by decide) (by decide) hmatch
  have hp : endsWith n ".prj" = false :=
    ends_excl (by decide) (by decide) (by decide) hmatch
  intro e he
  simp only [tracked, List.mem_cons, List.not_mem_nil, or_false] at he
  rcases he with rfl | rfl | rfl | rfl
  · rw [cntE_cons_pos rest hmatch, slotCnt_eq_one (by rw [slotGet_shp]; rfl),
      slotCnt_eq_zero (by rw [slotGet_shp, hnone])]
    omega
  · rw [cntE_cons_neg rest hx]
    rfl
  · rw [cntE_cons_neg rest hd]
    rfl
  · rw [cntE_cons_neg rest hp]
    rfl

/-- Recording a fresh `.shx` match preserves, per tracked extension, the sum
of slot occupancy and remaining match count. -/
theorem slot_step_shx {s : Slots} {n : String} (rest : List String)
    (hmatch : endsWith n ".shx" = true) (hnone : s.shx = none) :
    ∀ e ∈ tracked, slotCnt { s with shx := some n } e + cntE e rest
      = slotCnt s e + cntE e (n :: rest) := by
  have hq : endsWith n ".shp" = false :=
    ends_excl (by decide) (by decide) (by decide) hmatch
  have hd : endsWith n ".dbf" = false :=
    ends_excl (by decide) (by decide) (by decide) hmatch
  have hp : endsWith n ".prj" = false :=
    ends_excl (by decide) (by decide) (by decide) hmatch
  intro e he
  simp only [tracked, List.mem_cons, List.not_mem_nil, or_false] at he
  rcases he with rfl | rfl | rfl | rfl
  · rw [cntE_cons_neg rest hq]
    rfl
  · rw [cntE_cons_pos rest hmatch, slotCnt_eq_one (by rw [slotGet_shx]; rfl),
      slotCnt_eq_zero (by rw [slotGet_shx, hnone])]
    omega
  · rw [cntE_cons_neg rest hd]
    rfl
  · rw [cntE_cons_neg rest hp]
    rfl

/-- Recording a fresh `.dbf` match preserves, per tracked extension, the sum
of slot occupancy and remaining match count. -/
theorem slot_step_dbf {s : Slots} {n : String} (rest : List String)
    (hmatch : endsWith n ".dbf" = true) (hnone : s.dbf = none) :
    ∀ e ∈ tracked, slotCnt { s with dbf := some n } e + cntE e rest
      = slotCnt s e + cntE e (n :: rest) := by
  have hq : endsWith n ".shp" = false :=
    ends_excl (by decide) (by decide) (by decide) hmatch
  have hx : endsWith n ".shx" = false :=
    ends_excl (by decide) (by decide) (by decide) hmatch
  have hp : endsWith n ".prj" = false :=
    ends_excl (by decide) (by decide) (by decide) hmatch
  intro e he
  simp only [tracked, List.mem_cons, List.not_mem_nil, or_false] at he
  rcases he with rfl | rfl | rfl | rfl
  · rw [cntE_cons_neg rest hq]
    rfl
  · rw [cntE_cons_neg rest hx]
    rfl
  · rw [cntE_cons_pos rest hmatch, slotCnt_eq_one (by rw [slotGet_dbf]; rfl),
      slotCnt_eq_zero (by rw [slotGet_dbf, hnone])]
    omega
  · rw [cntE_cons_neg rest hp]
    rfl

/-- Recording a fresh `.prj` match preserves, per tracked extension, the sum
of slot occupancy and remaining match count. -/
theorem slot_step_prj {s : Slots} {n : String} (rest : List String)
    (hmatch : endsWith n ".prj" = true) (hnone : s.prj = none) :
    ∀ e ∈ tracked, slotCnt { s with prj := some n } e + cntE e rest
      = slotCnt s e + cntE e (n :: rest) := by
  have hq : endsWith n ".shp" = false :=
    ends_excl (by decide) (by decide) (by decide) hmatch
  have hx : endsWith n ".shx" = false :=
    ends_excl (by decide) (by decide) (by decide) hmatch
  have hd : endsWith n ".dbf" = false :=
    ends_excl (by decide) (by decide) (by decide) hmatch
  intro e he
  simp only [tracked, List.mem_cons, List.not_mem_nil, or_false] at he
  rcases he with rfl | rfl | rfl | rfl
  · rw [cntE_cons_neg rest hq]
    rfl
  · rw [cntE_cons_neg rest hx]
    rfl
  · rw [cntE_cons_neg rest hd]
    rfl
  · rw [cntE_cons_pos rest hmatch, slotCnt_eq_one (by rw [slotGet_prj]; rfl),
      slotCnt_eq_zero (by rw [slotGet_prj, hnone])]
    omega

/-- When some tracked extension has two or more matches left (counting a
match already recorded in the slots), the loop fails with
`MultipleFilesFound` for some such extension. -/
theorem enumerate_dup (names : List String) :
    ∀ (s : Slots) (ext : String), ext ∈ tracked →
    2 ≤ slotCnt s ext + cntE ext names →
    ∃ e, e ∈ tracked ∧ 2 ≤ slotCnt s e + cntE e names ∧
      enumerate names s = .error (.MultipleFilesFound e) := by
  induction names with
  | nil =>
    intro s ext hm hc
    exfalso
    have h0 : cntE ext [] = 0 := by simp [cntE]
    rw [h0] at hc
    have h1 : slotCnt s ext ≤ 1 := by
      unfold slotCnt
      split <;> omega
    omega
  | cons n rest ih =>
    intro s ext hm hc
    by_cases hshp : endsWith n ".shp" = true
    · cases hsome : s.shp with
      | some v =>
        refine ⟨".shp", by decide, ?_, ?_⟩
        · rw [cntE_cons_pos rest hshp, slotCnt_eq_one (by rw [slotGet_shp, hsome]; rfl)]
          omega
        · have hstep : classifyStep s n = .error (.MultipleFilesFound ".shp") := by
            rw [classifyStep_shp hshp, hsome]
          simp only [enumerate, hstep]
      | none =>
        have htrans := slot_step_shp rest hshp hsome
        obtain ⟨e, hem, heb, henum⟩ := ih { s with shp := some n } ext hm
          (by rw [htrans ext hm]; exact hc)
        have hstep : classifyStep s n = .ok { s with shp := some n } := by
          rw [classifyStep_shp hshp, hsome]
        refine ⟨e, hem, by rw [← htrans e hem]; exact heb, ?_⟩
        simp only [enumerate, hstep]
        exact henum
    · by_cases hshx : endsWith n ".shx" = true
      · cases hsome : s.shx with
        | some v =>
          refine ⟨".shx", by decide, ?_, ?_⟩
          · rw [cntE_cons_pos rest hshx, slotCnt_eq_one (by rw [slotGet_shx, hsome]; rfl)]
            omega
          · have hstep : classifyStep s n = .error (.MultipleFilesFound ".shx") := by
              rw [classifyStep_shx hshx, hsome]
            simp only [enumerate, hstep]
        | none =>
          have htrans := slot_step_shx rest hshx hsome
          obtain ⟨e, hem, heb, henum⟩ := ih { s with shx := some n } ext hm
            (by rw [htrans ext hm]; exact hc)
          have hstep : classifyStep s n = .ok { s with shx := some n } := by
            rw [classifyStep_shx hshx, hsome]
          refine ⟨e, hem, by rw [← htrans e hem]; exact heb, ?_⟩
          simp only [enumerate, hstep]
          exact henum
      · by_cases hdbf : endsWith n ".dbf" = true
        · cases hsome : s.dbf with
          | some v =>
            refine ⟨".dbf", by decide, ?_, ?_⟩
            · rw [cntE_cons_pos rest hdbf, slotCnt_eq_one (by rw [slotGet_dbf, hsome]; rfl)]
              omega
            · have hstep : classifyStep s n = .error (.MultipleFilesFound ".dbf") := by
                rw [classifyStep_dbf hdbf, hsome]
              simp only [enumerate, hstep]
          | none =>
            have htrans := slot_step_dbf rest hdbf hsome
            obtain ⟨e, hem, heb, henum⟩ := ih { s with dbf := some n } ext hm
              (by rw [htrans ext hm]; exact hc)
            have hstep : classifyStep s n = .ok { s with dbf := some n } := by
              rw [classifyStep_dbf hdbf, hsome]
            refine ⟨e, hem, by rw [← htrans e hem]; exact heb, ?_⟩
            simp only [enumerate, hstep]
            exact henum
        · by_cases hprj : endsWith n ".prj" = true
          · cases hsome : s.prj with
            | some v =>
              refine ⟨".prj", by decide, ?_, ?_⟩
              · rw [cntE_cons_pos rest hprj, slotCnt_eq_one (by rw [slotGet_prj, hsome]; rfl)]
                omega
              · have hstep : classifyStep s n = .error (.MultipleFilesFound ".prj") := by
                  rw [classifyStep_prj hprj, hsome]
                simp only [enumerate, hstep]
            | none =>
              have htrans := slot_step_prj rest hprj hsome
              obtain ⟨e, hem, heb, henum⟩ := ih { s with prj := some n } ext hm
                (by rw [htrans ext hm]; exact hc)
              have hstep : classifyStep s n = .ok { s with prj := some n } := by
                rw [classifyStep_prj hprj, hsome]
              refine ⟨e, hem, by rw [← htrans e hem]; exact heb, ?_⟩
              simp only [enumerate, hstep]
              exact henum
          · rw [Bool.not_eq_true] at hshp hshx hdbf hprj
            have hall : ∀ e2 ∈ tracked, endsWith n e2 = false := by
              intro e2 he2
              simp only [tracked, List.mem_cons, List.not_mem_nil, or_false] at he2
              rcases he2 with rfl | rfl | rfl | rfl <;> assumption
            have hstep : classifyStep s n = .ok s := classifyStep_untracked hall
            have hkeep : ∀ e2 ∈ tracked, cntE e2 (n :: rest) = cntE e2 rest := by
              intro e2 he2
              exact cntE_cons_neg rest (hall e2 he2)
            obtain ⟨e, hem, heb, henum⟩ := ih s ext hm
              (by rw [hkeep ext hm] at hc; exact hc)
            refine ⟨e, hem, by rw [hkeep e hem]; exact heb, ?_⟩
            simp only [enumerate, hstep]
            exact henum

/-- Counting matches over member names factors through `map`. -/
theorem cntE_map_name (members : List Member) (e : String) :
    cntE e (members.map (·.name)) = members.countP (fun m => endsWith m.name e) := by
  simp only [cntE, List.countP_map]
  rfl

theorem slotGet_empty (ext : String) : slotGet ⟨none, none, none, none⟩ ext = none := by
  unfold slotGet
  split <;> rfl

/-! ## Claim theorems -/

/-- C3: `read_member` post-condition: when the member is found, its declared
size fits and the stream reads to completion, a byte count equal to the
declared size yields the filled buffer as a cursor at offset zero (so the
buffer length equals the declared size), and any mismatch trips the
`assert_eq!` — a forced abort, not a returned typed error. -/
theorem read_member_exact_size (usizeMax : Nat) (zs : ZippedShapefile)
    (name : String) (m : Member) (hfind : byName zs.archive name = some m)
    (hsize : m.declaredSize ≤ usizeMax) (hio : m.ioOk = true) :
    (m.content.length = m.declaredSize →
      read_member usizeMax zs name = (.ok ⟨m.content, 0⟩, [name], zs)) ∧
    (m.content.length ≠ m.declaredSize →
      read_member usizeMax zs name = (.abort, [name], zs)) := by
  constructor
  · intro h
    have hsize2 : m.content.length ≤ usizeMax := by omega
    simp [read_member, hfind, hsize, hsize2, hio, h.symm]
  · intro h
    have h2 : ¬ m.declaredSize = m.content.length := fun hh => h hh.symm
    simp [read_member, hfind, hsize, hio, h2]

theorem read_member_exact_size_witness :
    read_member 1000 zsFull "d.shp" = (.ok ⟨[1, 2, 3], 0⟩, ["d.shp"], zsFull) ∧
    read_member 1000 zsShort "s.shp" = (.abort, ["s.shp"], zsShort) :=
  ⟨(read_member_exact_size 1000 zsFull "d.shp" mShp (by rfl) (by decide) (by rfl)).1 (by rfl),
    (read_member_exact_size 1000 zsShort "s.shp" mShort (by rfl) (by decide) (by rfl)).2
      (by decide)⟩

/-- C4: a declared size exceeding the addressable-length maximum fails with
`MemberSizeTooLarge` carrying the original size (nothing is truncated, no
read happens); a fitting size never produces that error. -/
theorem read_member_size_overflow (usizeMax : Nat) (zs : ZippedShapefile)
    (name : String) (m : Member) (hfind : byName zs.archive name = some m) :
    (usizeMax < m.declaredSize →
      read_member usizeMax zs name =
        (.err (.MemberSizeTooLarge m.declaredSize), [], zs)) ∧
    (m.declaredSize ≤ usizeMax →
      ∀ sz, (read_member usizeMax zs name).1 ≠ .err (.MemberSizeTooLarge sz)) := by
  constructor
  · intro h
    have h2 : ¬ m.declaredSize ≤ usizeMax := by omega
    simp [read_member, hfind, h2]
  · intro h sz
    by_cases hio : m.ioOk = true
    · by_cases hlen : m.declaredSize = m.content.length
      · have h2 : m.content.length ≤ usizeMax := by omega
        simp [read_member, hfind, h, h2, hio, hlen]
      · simp [read_member, hfind, h, hio, hlen]
    · rw [Bool.not_eq_true] at hio
      simp [read_member, hfind, h, hio]

theorem read_member_size_overflow_witness :
    read_member (2 ^ 32 - 1) zsBig "big.shp"
      = (.err (.MemberSizeTooLarge (2 ^ 40)), [], zsBig) :=
  (read_member_size_overflow (2 ^ 32 - 1) zsBig "big.shp" mBig (by rfl)).1 (by norm_num [mBig])

/-- C6: a member name is classified into a tracked category iff its full
stored name ends with that category's literal extension: a matching suffix
drives exactly that category's slot (recorded when free, duplicate failure
when occupied), and a name ending in no tracked extension leaves the slots
untouched. -/
theorem classified_iff_suffix (s : Slots) (n : String) :
    (∀ ext ∈ tracked, endsWith n ext = true →
      classifyStep s n = match slotGet s ext with
        | some _ => .error (.MultipleFilesFound ext)
        | none => .ok (slotSet s ext n)) ∧
    ((∀ ext ∈ tracked, endsWith n ext = false) → classifyStep s n = .ok s) := by
  constructor
  · intro ext hm h
    simp only [tracked, List.mem_cons, List.not_mem_nil, or_false] at hm
    rcases hm with rfl | rfl | rfl | rfl
    · rw [classifyStep_shp h, slotGet_shp, slotSet_shp]
    · rw [classifyStep_shx h, slotGet_shx, slotSet_shx]
    · rw [classifyStep_dbf h, slotGet_dbf, slotSet_dbf]
    · rw [classifyStep_prj h, slotGet_prj, slotSet_prj]
  · exact classifyStep_untracked

theorem classified_iff_suffix_witness :
    classifyStep ⟨none, none, none, none⟩ "dir/sub/x.dbf" =
      .ok ⟨none, none, some "dir/sub/x.dbf", none⟩ := by
  have h := (classified_iff_suffix ⟨none, none, none, none⟩ "dir/sub/x.dbf").1
    ".dbf" (by decide) (by decide)
  exact h.trans (by rfl)

/-- C10: suffix classification needs no filename stem: every name of the
form `pre ++ ext` matches `ext` — so a member named exactly `".shp"`, or one
nested as `"a/.shp"`, is accepted as the geometry member — and classification
looks at nothing beyond the trailing characters. -/
theorem bare_extension_accepted :
    (∀ ext ∈ tracked, ∀ pre : String, endsWith (pre ++ ext) ext = true) ∧
    (∀ pre : String, classifyStep ⟨none, none, none, none⟩ (pre ++ ".shp") =
      .ok ⟨some (pre ++ ".shp"), none, none, none⟩) ∧
    new [memberNamed ".shp"] =
      .ok ⟨[memberNamed ".shp"], none, ".shp", none, none⟩ ∧
    new [memberNamed "a/.shp"] =
      .ok ⟨[memberNamed "a/.shp"], none, "a/.shp", none, none⟩ := by
  have hsuf : ∀ (pre ext : String), endsWith (pre ++ ext) ext = true := by
    intro pre ext
    rw [endsWith_iff, String.data_append]
    exact List.suffix_append pre.data ext.data
  refine ⟨fun ext _ pre => hsuf pre ext, ?_, by rfl, by rfl⟩
  intro pre
  rw [classifyStep_shp (hsuf pre ".shp")]

theorem bare_extension_accepted_witness :
    endsWith ("data" ++ ".shx") ".shx" = true :=
  bare_extension_accepted.1 ".shx" (by decide) "data"

/-- C2: an archive in which two or more member names share a tracked
extension fails construction during the enumeration pass with
`MultipleFilesFound` naming a duplicated extension, with the trace still
empty — no member has been materialized. -/
theorem duplicate_extension_fails (members : List Member)
    (h : ∃ ext ∈ tracked, 2 ≤ members.countP (fun m => endsWith m.name ext)) :
    ∃ ext, ext ∈ tracked ∧ 2 ≤ members.countP (fun m => endsWith m.name ext) ∧
      newWithTrace members = (.error (.MultipleFilesFound ext), []) := by
  obtain ⟨ext, hm, hc⟩ := h
  have hc2 : 2 ≤ slotCnt ⟨none, none, none, none⟩ ext
      + cntE ext (members.map (·.name)) := by
    rw [slotCnt_eq_zero (slotGet_empty ext), cntE_map_name members ext, Nat.zero_add]
    exact hc
  obtain ⟨e, hem, heb, henum⟩ :=
    enumerate_dup (members.map (·.name)) ⟨none, none, none, none⟩ ext hm hc2
  rw [slotCnt_eq_zero (slotGet_empty e), cntE_map_name members e, Nat.zero_add] at heb
  refine ⟨e, hem, heb, ?_⟩
  simp only [newWithTrace, henum]

theorem duplicate_extension_fails_witness :
    ∃ ext, ext ∈ tracked ∧ 2 ≤ dupDbfArchive.countP (fun m => endsWith m.name ext) ∧
      newWithTrace dupDbfArchive = (.error (.MultipleFilesFound ext), []) :=
  duplicate_extension_fails dupDbfArchive ⟨".dbf", by decide, by decide⟩

/-- C1 counterexample: with no `.shp` member present, the projection member
is materialized before the missing-geometry check — the construction fails
with `NoShpFound` only after reading the `.prj` member (nonempty trace), and
when that read fails the construction error is the read error, not
`NoShpFound`. -/
theorem no_shp_check_is_after_prj_read :
    newWithTrace [goodPrj] = (.error .NoShpFound, ["a.prj"]) ∧
    newWithTrace [badPrj] = (.error .IOError, ["b.prj"]) := by
  constructor <;> rfl

/-- C1 (amended): an archive with no `.shp`-suffixed member and no
duplicated tracked extension fails construction with `NoShpFound`, provided
the projection member (when present) reads and decodes successfully; the
missing-geometry check runs after the projection materialization, so when a
`.prj` member exists the trace is nonempty — that member is materialized
before the failure. -/
theorem no_shp_fails (members : List Member)
    (hshp : ∀ m ∈ members, endsWith m.name ".shp" = false)
    (hdup : ∀ ext ∈ tracked, members.countP (fun m => endsWith m.name ext) ≤ 1)
    (hprj : ∀ m ∈ members, endsWith m.name ".prj" = true →
      m.ioOk = true ∧ m.utf8Ok = true) :
    (newWithTrace members).1 = .error .NoShpFound ∧
    ((∃ m ∈ members, endsWith m.name ".prj" = true) →
      (newWithTrace members).2 ≠ []) := by
  have hdup2 : ∀ ext ∈ tracked, cntE ext (members.map (·.name)) ≤ 1 := by
    intro ext hm
    rw [cntE_map_name members ext]
    exact hdup ext hm
  have henum := enumerate_empty_ok (members.map (·.name)) hdup2
  have hfshp : findE ".shp" (members.map (·.name)) = none := by
    simp only [findE, List.find?_eq_none]
    intro x hx
    simp only [List.mem_map] at hx
    obtain ⟨m, hm, rfl⟩ := hx
    simp [hshp m hm]
  cases hfprj : findE ".prj" (members.map (·.name)) with
  | none =>
    have hnone : ∀ m ∈ members, endsWith m.name ".prj" = false := by
      intro m hm
      have hx := List.find?_eq_none.mp hfprj m.name (List.mem_map.mpr ⟨m, hm, rfl⟩)
      simpa using hx
    constructor
    · simp [newWithTrace, henum, hfprj, hfshp, finishNew]
    · rintro ⟨m, hm, hp⟩
      rw [hnone m hm] at hp
      cases hp
  | some p =>
    have hfprj2 : List.find? (fun n => endsWith n ".prj") (members.map (·.name))
        = some p := hfprj
    have hpe0 := List.find?_some hfprj2
    have hpe : endsWith p ".prj" = true := hpe0
    have hpm : p ∈ members.map (·.name) := List.mem_of_find?_eq_some hfprj2
    obtain ⟨m0, hm0, hname0⟩ := List.mem_map.mp hpm
    have hbysome : (byName members p).isSome = true := by
      simp only [byName, List.find?_isSome]
      exact ⟨m0, hm0, by simp [hname0]⟩
    obtain ⟨m, hby⟩ := Option.isSome_iff_exists.mp hbysome
    have hby2 : List.find? (fun q => q.name == p) members = some m := hby
    have hmmem : m ∈ members := List.mem_of_find?_eq_some hby2
    have hmname : m.name = p := by
      have hb := List.find?_some hby2
      exact eq_of_beq (α := String) hb
    obtain ⟨hio, hutf⟩ := hprj m hmmem (by rw [hmname]; exact hpe)
    have hread : readToString m = .ok m.asText := by
      simp [readToString, hio, hutf]
    constructor
    · simp [newWithTrace, henum, hfprj, hby, hread, finishNew, hfshp]
    · intro _
      simp [newWithTrace, henum, hfprj, hby, hread, finishNew, hfshp]

theorem no_shp_fails_witness :
    (newWithTrace [goodPrj]).1 = .error .NoShpFound ∧
    ((∃ m ∈ [goodPrj], endsWith m.name ".prj" = true) →
      (newWithTrace [goodPrj]).2 ≠ []) :=
  no_shp_fails [goodPrj] (by decide) (by decide) (by decide)

/-! ## Post-state of the facade operations -/

theorem read_member_post (usizeMax : Nat) (zs : ZippedShapefile) (name : String) :
    (read_member usizeMax zs name).2.2 = zs := by
  unfold read_member
  split
  · rfl
  · split
    · split
      · split
        · rfl
        · rfl
      · rfl
    · rfl

theorem shape_reader_post (E : Externals) (usizeMax : Nat) (zs : ZippedShapefile) :
    (shape_reader E usizeMax zs).2.2 = zs := by
  unfold shape_reader
  split
  next shpCur t1 zs1 heq =>
    have hz1 : zs1 = zs := by
      have hp := read_member_post usizeMax zs zs.shp
      rw [heq] at hp
      exact hp
    split
    next shx heq0 =>
      split
      next shxCur t2 zs2 heq2 =>
        have hp := read_member_post usizeMax zs1 shx
        rw [heq2] at hp
        exact hp.trans hz1
      next e t2 zs2 heq2 =>
        have hp := read_member_post usizeMax zs1 shx
        rw [heq2] at hp
        exact hp.trans hz1
      next t2 zs2 heq2 =>
        have hp := read_member_post usizeMax zs1 shx
        rw [heq2] at hp
        exact hp.trans hz1
    next heq0 => exact hz1
  next e t1 zs1 heq =>
    have hp := read_member_post usizeMax zs zs.shp
    rw [heq] at hp
    exact hp
  next t1 zs1 heq =>
    have hp := read_member_post usizeMax zs zs.shp
    rw [heq] at hp
    exact hp

theorem dbf_reader_post (E : Externals) (usizeMax : Nat) (zs : ZippedShapefile) :
    (dbf_reader E usizeMax zs).2.2 = zs := by
  unfold dbf_reader
  split
  · rfl
  next dbf heq0 =>
    split
    next cur t zs1 heq =>
      have hp := read_member_post usizeMax zs dbf
      rw [heq] at hp
      split <;> exact hp
    next e t zs1 heq =>
      have hp := read_member_post usizeMax zs dbf
      rw [heq] at hp
      exact hp
    next t zs1 heq =>
      have hp := read_member_post usizeMax zs dbf
      rw [heq] at hp
      exact hp

theorem reader_post (E : Externals) (usizeMax : Nat) (zs : ZippedShapefile) :
    (reader E usizeMax zs).2.2 = zs := by
  unfold reader
  split
  next t1 zs1 heq =>
    have hp := dbf_reader_post E usizeMax zs
    rw [heq] at hp
    exact hp
  next dbf t1 zs1 heq =>
    have hp := dbf_reader_post E usizeMax zs
    rw [heq] at hp
    split
    next shp t2 zs2 heq2 =>
      have hq := shape_reader_post E usizeMax zs1
      rw [heq2] at hq
      exact hq.trans hp
    next e t2 zs2 heq2 =>
      have hq := shape_reader_post E usizeMax zs1
      rw [heq2] at hq
      exact hq.trans hp
    next t2 zs2 heq2 =>
      have hq := shape_reader_post E usizeMax zs1
      rw [heq2] at hq
      exact hq.trans hp
  next e t1 zs1 heq =>
    have hp := dbf_reader_post E usizeMax zs
    rw [heq] at hp
    exact hp
  next t1 zs1 heq =>
    have hp := dbf_reader_post E usizeMax zs
    rw [heq] at hp
    exact hp

theorem types_post (E : Externals) (usizeMax : Nat) (zs : ZippedShapefile) :
    (types E usizeMax zs).2.2 = zs := by
  unfold types
  split
  next ro t zs1 heq =>
    have hp := dbf_reader_post E usizeMax zs
    rw [heq] at hp
    exact hp
  next e t zs1 heq =>
    have hp := dbf_reader_post E usizeMax zs
    rw [heq] at hp
    exact hp
  next t zs1 heq =>
    have hp := dbf_reader_post E usizeMax zs
    rw [heq] at hp
    exact hp

/-- C9: frame property: every facade operation leaves the resolved dataset
(archive handle, slots, decoded projection text) unchanged, so the
operations are repeatable in any order with identical results, each
materializing its own fresh buffers; `projection` is a pure accessor of the
eagerly decoded text, performing no reads and never failing. -/
theorem facade_frame (E : Externals) (usizeMax : Nat) (zs : ZippedShapefile) :
    projection zs = zs.projection ∧
    (shape_reader E usizeMax zs).2.2 = zs ∧
    (dbf_reader E usizeMax zs).2.2 = zs ∧
    (reader E usizeMax zs).2.2 = zs ∧
    (types E usizeMax zs).2.2 = zs ∧
    shape_reader E usizeMax ((types E usizeMax zs).2.2) = shape_reader E usizeMax zs ∧
    reader E usizeMax ((shape_reader E usizeMax zs).2.2) = reader E usizeMax zs :=
  ⟨rfl, shape_reader_post E usizeMax zs, dbf_reader_post E usizeMax zs,
    reader_post E usizeMax zs, types_post E usizeMax zs,
    by rw [types_post], by rw [shape_reader_post]⟩

/-- C5: the combined reader runs attribute-reader construction first: with
no attribute slot it fails `NoDbfFound` (while `dbf_reader` itself returns
the absent value `Ok(None)`, not an error), and otherwise the attribute
member is materialized before the geometry member and the two readers are
paired. -/
theorem combined_reader_order (E : Externals) (usizeMax : Nat) (zs : ZippedShapefile) :
    (zs.dbf = none →
      reader E usizeMax zs = (.err .NoDbfFound, [], zs) ∧
      dbf_reader E usizeMax zs = (.ok none, [], zs)) ∧
    (∀ r t1 zs1, dbf_reader E usizeMax zs = (.ok (some r), t1, zs1) →
      ∀ sr t2 zs2, shape_reader E usizeMax zs1 = (.ok sr, t2, zs2) →
        reader E usizeMax zs = (.ok ⟨sr, r⟩, t1 ++ t2, zs2)) := by
  constructor
  · intro h
    have hd : dbf_reader E usizeMax zs = (.ok none, [], zs) := by
      simp only [dbf_reader, h]
    refine ⟨?_, hd⟩
    simp only [reader, hd]
  · intro r t1 zs1 h1 sr t2 zs2 h2
    simp only [reader, h1, h2]

theorem combined_reader_order_witness :
    reader extOk 1000 zsFull =
      (.ok ⟨⟨1⟩, ⟨[⟨"id", "N"⟩]⟩⟩, ["d.dbf", "d.shp", "d.shx"], zsFull) :=
  (combined_reader_order extOk 1000 zsFull).2 ⟨[⟨"id", "N"⟩]⟩ ["d.dbf"] zsFull (by rfl)
    ⟨1⟩ ["d.shp", "d.shx"] zsFull (by rfl)

/-- C7: `shape_reader` materializes the geometry member and then constructs
the reader index-assisted (geometry and index buffers) when an index member
was resolved, sequential-only (geometry buffer alone) otherwise; any
materialization error, and any format error from the external constructors
(via `ofExcept`), is propagated. -/
theorem shape_reader_modes (E : Externals) (usizeMax : Nat) (zs : ZippedShapefile) :
    (∀ e t zs1, read_member usizeMax zs zs.shp = (.err e, t, zs1) →
      shape_reader E usizeMax zs = (.err e, t, zs1)) ∧
    (zs.shx = none → ∀ c t zs1, read_member usizeMax zs zs.shp = (.ok c, t, zs1) →
      shape_reader E usizeMax zs = (ofExcept (E.shapeNew c), t, zs1)) ∧
    (∀ x, zs.shx = some x → ∀ c1 t1 zs1,
      read_member usizeMax zs zs.shp = (.ok c1, t1, zs1) →
      (∀ e2 t2 zs2, read_member usizeMax zs1 x = (.err e2, t2, zs2) →
        shape_reader E usizeMax zs = (.err e2, t1 ++ t2, zs2)) ∧
      (∀ c2 t2 zs2, read_member usizeMax zs1 x = (.ok c2, t2, zs2) →
        shape_reader E usizeMax zs = (ofExcept (E.shapeWithShx c1 c2), t1 ++ t2, zs2))) := by
  refine ⟨?_, ?_, ?_⟩
  · intro e t zs1 h
    simp only [shape_reader, h]
  · intro hx c t zs1 h
    simp only [shape_reader, h, hx]
  · intro x hx c1 t1 zs1 h1
    constructor
    · intro e2 t2 zs2 h2
      simp only [shape_reader, h1, hx, h2]
    · intro c2 t2 zs2 h2
      simp only [shape_reader, h1, hx, h2]

theorem shape_reader_modes_witness :
    shape_reader extOk 1000 zsNoDbf = (.ok ⟨0⟩, ["d.shp"], zsNoDbf) ∧
    shape_reader extOk 1000 zsFull = (.ok ⟨1⟩, ["d.shp", "d.shx"], zsFull) :=
  ⟨(shape_reader_modes extOk 1000 zsNoDbf).2.1 (by rfl) ⟨[1, 2, 3], 0⟩ ["d.shp"]
      zsNoDbf (by rfl),
    ((shape_reader_modes extOk 1000 zsFull).2.2 "d.shx" (by rfl) ⟨[1, 2, 3], 0⟩
      ["d.shp"] zsFull (by rfl)).2 ⟨[9], 0⟩ ["d.shx"] zsFull (by rfl)⟩

/-- C8: the field-schema query returns the absent value when no attribute
member was resolved, else the (field-name, field-type-label) pairs obtained
by mapping over the attribute reader's field list — exactly its declared
order. -/
theorem types_schema_order (E : Externals) (usizeMax : Nat) (zs : ZippedShapefile) :
    (zs.dbf = none → types E usizeMax zs = (.ok none, [], zs)) ∧
    (∀ r t zs1, dbf_reader E usizeMax zs = (.ok (some r), t, zs1) →
      types E usizeMax zs =
        (.ok (some (r.fields.map fun f => (f.name, f.fieldTypeStr))), t, zs1)) := by
  constructor
  · intro h
    have hd : dbf_reader E usizeMax zs = (.ok none, [], zs) := by
      simp only [dbf_reader, h]
    simp [types, hd]
  · intro r t zs1 h
    simp [types, h]

theorem types_schema_order_witness :
    types extOk 1000 zsFull = (.ok (some [("id", "N")]), ["d.dbf"], zsFull) :=
  (types_schema_order extOk 1000 zsFull).2 ⟨[⟨"id", "N"⟩]⟩ ["d.dbf"] zsFull (by rfl)

end ZippedShp
